import Mathlib

/-!
Shallow embedding of the "nowayychess" chess-physics demo.

The repository has two variants of the shake-the-board gag:

* `chess-physics-sim.tsx` — a 2D Matter.js simulation.  `shakeBoard` bumps a
  cumulative intensity counter (clamped at 10 by the state setter, but the
  force scale uses the pre-call value plus one, unclamped), applies a random
  force `(Math.random() - 0.5) * intensity * 0.01` per component to every
  piece, and, when the intensity exceeds 5, translates every (static) board
  square by `(Math.random() - 0.5) * (intensity - 5) * 2` per component.
  `resetBoard` restores every piece to its recorded origin with zero
  velocity, zero angular velocity and zero angle, restores every board
  square to the grid position recomputed from its index, and zeroes the
  cumulative intensity.

* the 3D variant (`src/unnamed/part_000`) — each `ChessPiece` reacts to a
  positive `shakeForce` by applying one impulse whose horizontal components
  are `(Math.random() - 0.5) * shakeForce * 0.4` and whose vertical
  component is `Math.random() * shakeForce * 0.15` (non-negative).

Coordinates and random draws are modelled over `ℚ`; `Math.random` becomes an
explicit stream `rng : ℕ → ℚ` of successive draws, assumed to lie in `[0,1]`.
-/

/-- A 2D vector of rational coordinates. -/
structure Vec2 where
  x : ℚ
  y : ℚ
deriving DecidableEq, Repr

/-- A 3D vector of rational coordinates (for the 3D variant). -/
structure Vec3 where
  x : ℚ
  y : ℚ
  z : ℚ
deriving DecidableEq, Repr

/-- A dynamic chess-piece body of the 2D simulation: a Matter.js circle body
with the custom fields (`originalX`, `originalY`, `isWhite`, `pieceType`)
that `createPieces` attaches.  `force` is Matter's per-body force
accumulator, which `Body.applyForce` adds to. -/
structure PieceBody where
  position : Vec2
  velocity : Vec2
  angularVelocity : ℚ
  angle : ℚ
  force : Vec2
  originalX : ℚ
  originalY : ℚ
  isWhite : Bool
  pieceType : Char
deriving DecidableEq, Repr

/-- A static board-square body of the 2D simulation (an 80×80 static
rectangle; only its dynamic state, the position, is modelled). -/
structure SquareBody where
  position : Vec2
deriving DecidableEq, Repr

/-- A static wall body of the 2D simulation. -/
structure WallBody where
  position : Vec2
  width : ℚ
  height : ℚ
deriving DecidableEq, Repr

/-- The state of the 2D simulation that `shakeBoard` / `resetBoard` touch:
the piece bodies, the board-square bodies, the wall bodies and the React
`shakeIntensity` counter. -/
structure SimState where
  pieces : List PieceBody
  squares : List SquareBody
  walls : List WallBody
  shakeIntensity : ℕ
deriving DecidableEq, Repr

/-- The `initialBoard` literal of `chess-physics-sim.tsx`: the standard
chess starting position, uppercase = white, lowercase = black, '.' = empty. -/
def initialBoard : List (List Char) :=
  [ ['r', 'n', 'b', 'q', 'k', 'b', 'n', 'r'],
    ['p', 'p', 'p', 'p', 'p', 'p', 'p', 'p'],
    ['.', '.', '.', '.', '.', '.', '.', '.'],
    ['.', '.', '.', '.', '.', '.', '.', '.'],
    ['.', '.', '.', '.', '.', '.', '.', '.'],
    ['.', '.', '.', '.', '.', '.', '.', '.'],
    ['P', 'P', 'P', 'P', 'P', 'P', 'P', 'P'],
    ['R', 'N', 'B', 'Q', 'K', 'B', 'N', 'R'] ]

/-- Cell lookup `initialBoard[row][col]` (out-of-range reads default to '.',
which never happens for the 8×8 accesses the source makes). -/
def cellChar (row col : ℕ) : Char :=
  ((initialBoard.getD row []).getD col '.')

/-- The square size of the 2D board (80 pixels). -/
def squareSize : ℚ := 80

/-- `createPieces` of `chess-physics-sim.tsx`: for each non-'.' cell of
`initialBoard`, one circle body at the centre of that cell, with
`isWhite = (piece === piece.toUpperCase())` and the origin recorded. -/
def createPieces : List PieceBody :=
  (List.range 8).flatMap fun row =>
    (List.range 8).flatMap fun col =>
      let piece := cellChar row col
      if piece ≠ '.' then
        let x : ℚ := (col : ℚ) * squareSize + squareSize / 2
        let y : ℚ := (row : ℚ) * squareSize + squareSize / 2
        [{ position := ⟨x, y⟩
           velocity := ⟨0, 0⟩
           angularVelocity := 0
           angle := 0
           force := ⟨0, 0⟩
           originalX := x
           originalY := y
           isWhite := piece.toUpper = piece
           pieceType := piece }]
      else []

/-- The 64 static board squares, pushed row-major (row outer, col inner), so
square `index` sits at row `index / 8`, column `index % 8`. -/
def createSquares : List SquareBody :=
  (List.range 8).flatMap fun row =>
    (List.range 8).flatMap fun col =>
      [⟨⟨(col : ℚ) * squareSize + squareSize / 2,
         (row : ℚ) * squareSize + squareSize / 2⟩⟩]

/-- The four static boundary walls of the 2D board (thickness 20, board
size 640). -/
def createWalls : List WallBody :=
  [ ⟨⟨320, -10⟩, 640, 20⟩,
    ⟨⟨320, 650⟩, 640, 20⟩,
    ⟨⟨-10, 320⟩, 20, 640⟩,
    ⟨⟨650, 320⟩, 20, 640⟩ ]

/-- The world as `initializePhysics` seeds it, with `shakeIntensity = 0`. -/
def initState : SimState :=
  { pieces := createPieces
    squares := createSquares
    walls := createWalls
    shakeIntensity := 0 }

/-- The force scale `shakeBoard` actually uses: the stale React state value
plus one (`const intensity = shakeIntensity + 1`), NOT the clamped value the
state setter stores. -/
def shakeScale (s : SimState) : ℕ := s.shakeIntensity + 1

/-- The random force `shakeBoard` draws for one piece:
`(Math.random() - 0.5) * intensity * 0.01` per component. -/
def pieceShakeForce (intensity : ℕ) (rx ry : ℚ) : Vec2 :=
  ⟨(rx - 1/2) * (intensity : ℚ) * (1/100),
   (ry - 1/2) * (intensity : ℚ) * (1/100)⟩

/-- `Body.applyForce(piece, piece.position, force)`: adds the force to the
body's force accumulator (the offset is zero, so the torque is unchanged). -/
def applyShakeForce (intensity : ℕ) (rx ry : ℚ) (p : PieceBody) : PieceBody :=
  { p with force := ⟨p.force.x + (pieceShakeForce intensity rx ry).x,
                     p.force.y + (pieceShakeForce intensity rx ry).y⟩ }

/-- The random translation `shakeBoard` draws for one board square when the
intensity exceeds 5: `(Math.random() - 0.5) * (intensity - 5) * 2` per
component. -/
def squareShake (intensity : ℕ) (rx ry : ℚ) : Vec2 :=
  ⟨(rx - 1/2) * ((intensity : ℚ) - 5) * 2,
   (ry - 1/2) * ((intensity : ℚ) - 5) * 2⟩

/-- `Body.translate(square, shake)`. -/
def translateSquare (intensity : ℕ) (rx ry : ℚ) (sq : SquareBody) : SquareBody :=
  ⟨⟨sq.position.x + (squareShake intensity rx ry).x,
    sq.position.y + (squareShake intensity rx ry).y⟩⟩

/-- `shakeBoard` of `chess-physics-sim.tsx`.  `rng` is the stream of
successive `Math.random()` results: piece `i` consumes draws `2*i` and
`2*i+1`; when the intensity exceeds 5, square `j` consumes the draws after
all piece draws.  The stored intensity becomes `min (prev+1) 10`, while the
force scale is the unclamped `shakeScale`. -/
def shakeBoard (rng : ℕ → ℚ) (s : SimState) : SimState :=
  let intensity := shakeScale s
  let n := s.pieces.length
  { pieces := s.pieces.mapIdx fun i p =>
      applyShakeForce intensity (rng (2 * i)) (rng (2 * i + 1)) p
    squares :=
      if intensity > 5 then
        s.squares.mapIdx fun j sq =>
          translateSquare intensity (rng (2 * n + 2 * j)) (rng (2 * n + 2 * j + 1)) sq
      else s.squares
    walls := s.walls
    shakeIntensity := min (s.shakeIntensity + 1) 10 }

/-- `resetBoard` acting on one piece: position back to the recorded origin,
zero velocity, zero angular velocity, zero angle. -/
def resetPiece (p : PieceBody) : PieceBody :=
  { p with position := ⟨p.originalX, p.originalY⟩
           velocity := ⟨0, 0⟩
           angularVelocity := 0
           angle := 0 }

/-- The grid position `resetBoard` recomputes for board square `index`:
column `index % 8`, row `index / 8`, centre of that cell. -/
def squareOriginalPos (index : ℕ) : Vec2 :=
  ⟨((index % 8 : ℕ) : ℚ) * squareSize + squareSize / 2,
   ((index / 8 : ℕ) : ℚ) * squareSize + squareSize / 2⟩

/-- `resetBoard` of `chess-physics-sim.tsx`: every piece back to its origin
at rest, every board square back to its index-derived grid position, and
the cumulative intensity cleared to 0. -/
def resetBoard (s : SimState) : SimState :=
  { pieces := s.pieces.map resetPiece
    squares := s.squares.mapIdx fun index _ => ⟨squareOriginalPos index⟩
    walls := s.walls
    shakeIntensity := 0 }

/-- An external command to the 2D controller: a shake (with its stream of
random draws) or a reset. -/
inductive Cmd where
  | disturb (rng : ℕ → ℚ) : Cmd
  | reset : Cmd

/-- Run one command. -/
def runCmd (c : Cmd) (s : SimState) : SimState :=
  match c with
  | .disturb rng => shakeBoard rng s
  | .reset => resetBoard s

/-- Run a command sequence, left to right. -/
def runCmds (cs : List Cmd) (s : SimState) : SimState :=
  cs.foldl (fun s c => runCmd c s) s

/-- The 3D variant's per-piece shake impulse (`ChessPiece` in the 3D scene):
the draws are taken in source order `forceX`, `forceZ`, `forceY`, with
`forceX = (r - 0.5) * shakeForce * 0.4`, `forceZ = (r - 0.5) * shakeForce * 0.4`
and `forceY = r * shakeForce * 0.15`. -/
def chessPieceImpulse (shakeForce rx rz ry : ℚ) : Vec3 :=
  ⟨(rx - 1/2) * shakeForce * (2/5),
   ry * shakeForce * (3/20),
   (rz - 1/2) * shakeForce * (2/5)⟩

/-- The 3D variant's shake effect on a piece's velocity: the impulse is
applied only when `shakeForce > 0`, and the piece mass is 1.0 so the
velocity changes by exactly the impulse. -/
def chessPieceShake (shakeForce rx rz ry : ℚ) (v : Vec3) : Vec3 :=
  if 0 < shakeForce then
    ⟨v.x + (chessPieceImpulse shakeForce rx rz ry).x,
     v.y + (chessPieceImpulse shakeForce rx rz ry).y,
     v.z + (chessPieceImpulse shakeForce rx rz ry).z⟩
  else v

/-- The all-zeros random stream, used for concrete evaluations. -/
def zeroRng : ℕ → ℚ := fun _ => 0


/-! ## Helper lemmas -/

/-- Resetting a piece twice is the same as resetting it once. -/
lemma resetPiece_idem (p : PieceBody) : resetPiece (resetPiece p) = resetPiece p := rfl

/-- The square-restoring pass of `resetBoard` only looks at indices, so
running it twice equals running it once. -/
lemma mapIdx_squareOriginal_idem (l : List SquareBody) :
    ((l.mapIdx fun index _ => (⟨squareOriginalPos index⟩ : SquareBody)).mapIdx
        fun index _ => (⟨squareOriginalPos index⟩ : SquareBody)) =
      l.mapIdx fun index _ => ⟨squareOriginalPos index⟩ := by
  apply List.ext_get
  · simp
  · intro n h1 h2
    rw [List.get_mapIdx _ _ n (by simpa using h1), List.get_mapIdx _ _ n (by simpa using h2)]

/-- `shakeBoard` stores the clamped intensity. -/
lemma shakeBoard_intensity (rng : ℕ → ℚ) (s : SimState) :
    (shakeBoard rng s).shakeIntensity = min (s.shakeIntensity + 1) 10 := rfl

/-- `resetBoard` clears the intensity. -/
lemma resetBoard_intensity (s : SimState) : (resetBoard s).shakeIntensity = 0 := rfl

/-- Running a command sequence keeps the intensity within the clamp bound. -/
lemma runCmds_intensity_le (cs : List Cmd) :
    ∀ s : SimState, s.shakeIntensity ≤ 10 → (runCmds cs s).shakeIntensity ≤ 10 := by
  induction cs with
  | nil => intro s h; exact h
  | cons c cs ih =>
    intro s h
    have hstep : (runCmd c s).shakeIntensity ≤ 10 := by
      cases c with
      | disturb rng => rw [runCmd, shakeBoard_intensity]; omega
      | reset => rw [runCmd, resetBoard_intensity]; omega
    simpa [runCmds] using ih (runCmd c s) hstep

/-- `shakeBoard` never touches the walls. -/
lemma shakeBoard_walls (rng : ℕ → ℚ) (s : SimState) :
    (shakeBoard rng s).walls = s.walls := rfl

/-- `shakeBoard` leaves the board squares alone when the force scale is at
most 5. -/
lemma shakeBoard_squares_of_le (rng : ℕ → ℚ) (s : SimState) (h : shakeScale s ≤ 5) :
    (shakeBoard rng s).squares = s.squares := by
  have h5 : ¬ (shakeScale s > 5) := by omega
  simp [shakeBoard, h5]

/-- A piece used to exercise theorems with hypotheses on concrete inputs. -/
def samplePiece : PieceBody :=
  { position := ⟨1, 2⟩
    velocity := ⟨3, 4⟩
    angularVelocity := 5
    angle := 6
    force := ⟨7, 8⟩
    originalX := 9
    originalY := 10
    isWhite := true
    pieceType := 'P' }

/-- A small state used to exercise theorems with hypotheses. -/
def sampleState : SimState :=
  { pieces := [samplePiece]
    squares := [⟨⟨1, 1⟩⟩]
    walls := []
    shakeIntensity := 7 }

/-- A single command preserves the number of pieces. -/
lemma runCmd_pieces_length (c : Cmd) (s : SimState) :
    (runCmd c s).pieces.length = s.pieces.length := by
  cases c with
  | disturb rng => simp [runCmd, shakeBoard]
  | reset => simp [runCmd, resetBoard]

/-- A single command never changes a piece's recorded origin. -/
lemma runCmd_origin (c : Cmd) (s : SimState) (i : ℕ)
    (h : i < (runCmd c s).pieces.length) (h0 : i < s.pieces.length) :
    ((runCmd c s).pieces.get ⟨i, h⟩).originalX = (s.pieces.get ⟨i, h0⟩).originalX ∧
    ((runCmd c s).pieces.get ⟨i, h⟩).originalY = (s.pieces.get ⟨i, h0⟩).originalY := by
  cases c with
  | disturb rng =>
    have hL : (runCmd (Cmd.disturb rng) s).pieces.get ⟨i, h⟩ =
        applyShakeForce (shakeScale s) (rng (2 * i)) (rng (2 * i + 1))
          (s.pieces.get ⟨i, h0⟩) :=
      List.get_mapIdx s.pieces _ i h0 h
    rw [hL]; exact ⟨rfl, rfl⟩
  | reset =>
    have hL : (runCmd Cmd.reset s).pieces.get ⟨i, h⟩ =
        resetPiece (s.pieces.get ⟨i, h0⟩) := by
      simp [runCmd, resetBoard, List.get_eq_getElem, List.getElem_map]
    rw [hL]; exact ⟨rfl, rfl⟩

/-- No command sequence ever changes a piece's recorded origin. -/
lemma runCmds_origin (cs : List Cmd) :
    ∀ (s : SimState) (i : ℕ) (h : i < (runCmds cs s).pieces.length)
      (h0 : i < s.pieces.length),
    ((runCmds cs s).pieces.get ⟨i, h⟩).originalX = (s.pieces.get ⟨i, h0⟩).originalX ∧
    ((runCmds cs s).pieces.get ⟨i, h⟩).originalY = (s.pieces.get ⟨i, h0⟩).originalY := by
  induction cs with
  | nil => intro s i h h0; exact ⟨rfl, rfl⟩
  | cons c cs ih =>
    intro s i h h0
    have h1 : i < (runCmd c s).pieces.length := by rw [runCmd_pieces_length]; exact h0
    have hstep := runCmd_origin c s i h1 h0
    have hrest := ih (runCmd c s) i h h1
    exact ⟨hrest.1.trans hstep.1, hrest.2.trans hstep.2⟩

/-! ## Claims -/

/-- C1: after `resetBoard`, every piece body sits at the origin position
recorded at creation, with zero velocity, zero angular velocity and zero
angle, and the cumulative shake intensity is 0.  The recorded origin fields
themselves are the creation-time ones: no command sequence from setup ever
alters them. -/
theorem reset_restores_pieces (s : SimState) (p : PieceBody)
    (hp : p ∈ (resetBoard s).pieces) :
    p.position = ⟨p.originalX, p.originalY⟩ ∧ p.velocity = ⟨0, 0⟩ ∧
    p.angularVelocity = 0 ∧ p.angle = 0 ∧ (resetBoard s).shakeIntensity = 0 ∧
    (∀ (cs : List Cmd) (i : ℕ) (hi : i < (runCmds cs initState).pieces.length)
      (hi0 : i < createPieces.length),
      ((runCmds cs initState).pieces.get ⟨i, hi⟩).originalX =
        (createPieces.get ⟨i, hi0⟩).originalX ∧
      ((runCmds cs initState).pieces.get ⟨i, hi⟩).originalY =
        (createPieces.get ⟨i, hi0⟩).originalY) := by
  rcases List.mem_map.mp hp with ⟨q, _, rfl⟩
  exact ⟨rfl, rfl, rfl, rfl, rfl, fun cs i hi hi0 => runCmds_origin cs initState i hi hi0⟩

/-- Witness for C1 at a concrete state and piece. -/
theorem reset_restores_pieces_witness :
    (resetPiece samplePiece).position =
        ⟨(resetPiece samplePiece).originalX, (resetPiece samplePiece).originalY⟩ ∧
    (resetPiece samplePiece).velocity = ⟨0, 0⟩ ∧
    (resetPiece samplePiece).angularVelocity = 0 ∧
    (resetPiece samplePiece).angle = 0 ∧
    (resetBoard sampleState).shakeIntensity = 0 ∧
    (∀ (cs : List Cmd) (i : ℕ) (hi : i < (runCmds cs initState).pieces.length)
      (hi0 : i < createPieces.length),
      ((runCmds cs initState).pieces.get ⟨i, hi⟩).originalX =
        (createPieces.get ⟨i, hi0⟩).originalX ∧
      ((runCmds cs initState).pieces.get ⟨i, hi⟩).originalY =
        (createPieces.get ⟨i, hi0⟩).originalY) :=
  reset_restores_pieces sampleState (resetPiece samplePiece) (by decide)

/-- C2: the cumulative shake intensity starts at 0, stays in the integer
range [0,10] under any sequence of disturb/reset commands, is clamped at 10
by disturb, and is returned to 0 by reset. -/
theorem intensity_invariant :
    initState.shakeIntensity = 0 ∧
    (∀ cs : List Cmd, 0 ≤ (runCmds cs initState).shakeIntensity ∧
      (runCmds cs initState).shakeIntensity ≤ 10) ∧
    (∀ (rng : ℕ → ℚ) (s : SimState),
      (shakeBoard rng s).shakeIntensity = min (s.shakeIntensity + 1) 10) ∧
    (∀ s : SimState, (resetBoard s).shakeIntensity = 0) := by
  refine ⟨rfl, fun cs => ⟨Nat.zero_le _, ?_⟩, fun rng s => rfl, fun s => rfl⟩
  exact runCmds_intensity_le cs initState (by decide)

/-- C6: the 3D variant applies no impulse when the shake force is zero, so a
zero-intensity disturb changes no piece's velocity. -/
theorem disturb_zero_velocity_unchanged (rx rz ry : ℚ) (v : Vec3) :
    chessPieceShake 0 rx rz ry v = v := by
  simp [chessPieceShake]

/-- C7: `resetBoard` is idempotent: resetting twice yields the same state
(piece positions, velocities, angles, squares and cumulative intensity) as
resetting once. -/
theorem reset_idempotent (s : SimState) : resetBoard (resetBoard s) = resetBoard s := by
  cases s with
  | mk pieces squares walls n =>
    simp only [resetBoard, SimState.mk.injEq, List.map_map]
    exact ⟨List.map_congr_left fun p _ => rfl, mapIdx_squareOriginal_idem squares,
      trivial, trivial⟩

/-- Ten consecutive shakes with the all-zeros random stream: they drive the
stored intensity to its maximum of 10. -/
def tenDisturbs : List Cmd := List.replicate 10 (Cmd.disturb zeroRng)

/-- Five consecutive shakes with the all-zeros random stream: the sixth
shake then runs at force scale 6, which exceeds the square-shake
threshold. -/
def fiveDisturbs : List Cmd := List.replicate 5 (Cmd.disturb zeroRng)

/-- Bounds for one centred uniform draw scaled as in the 2D piece force. -/
lemma symm_range_bound (I r : ℚ) (hI : 0 ≤ I) (h0 : 0 ≤ r) (h1 : r ≤ 1) :
    -(I * (5/1000)) ≤ (r - 1/2) * I * (1/100) ∧
      (r - 1/2) * I * (1/100) ≤ I * (5/1000) := by
  constructor <;>
    nlinarith [mul_nonneg h0 hI, mul_nonneg (by linarith : (0:ℚ) ≤ 1 - r) hI]

/-- A single piece at rest with no accumulated force. -/
def restPiece : PieceBody :=
  { position := ⟨40, 40⟩
    velocity := ⟨0, 0⟩
    angularVelocity := 0
    angle := 0
    force := ⟨0, 0⟩
    originalX := 40
    originalY := 40
    isWhite := true
    pieceType := 'P' }

/-- A one-piece world at rest with intensity 0. -/
def restState : SimState :=
  { pieces := [restPiece]
    squares := []
    walls := []
    shakeIntensity := 0 }

/-- C3 counterexample: in the 2D simulator the vertical component of the
random shake force is a centred draw, not a non-negative one: the first
shake on the world seeded by `initializePhysics` draws a vertical force of
`-0.005·intensity` when the random draws are 0, and the piece at rest ends
the shake with a strictly negative vertical force. -/
theorem shake_vertical_component_negative :
    (pieceShakeForce (shakeScale initState) (zeroRng 0) (zeroRng 1)).y < 0 ∧
    ((shakeBoard zeroRng restState).pieces.getD 0 restPiece).force.y = -(1/200) ∧
    ((shakeBoard zeroRng restState).pieces.getD 0 restPiece).force.y < 0 := by
  refine ⟨?_, ?_, ?_⟩ <;>
    norm_num [shakeBoard, restState, restPiece, zeroRng, shakeScale, initState,
      applyShakeForce, pieceShakeForce]

/-- C3 amended: each shake-force component is its own centred draw scaled
proportionally to the intensity, lying in the symmetric range
[-0.005·intensity, 0.005·intensity]; only the 3D variant's vertical impulse
component is non-negative (upward bias), with its horizontal components in
the symmetric range [-0.2·shakeForce, 0.2·shakeForce]. -/
theorem shake_impulse_ranges (I : ℕ) (f rx ry rz : ℚ)
    (hx0 : 0 ≤ rx) (hx1 : rx ≤ 1) (hy0 : 0 ≤ ry) (hy1 : ry ≤ 1)
    (hz0 : 0 ≤ rz) (hz1 : rz ≤ 1) (hf : 0 ≤ f) :
    (pieceShakeForce I rx ry).x = (rx - 1/2) * (I : ℚ) * (1/100) ∧
    (pieceShakeForce I rx ry).y = (ry - 1/2) * (I : ℚ) * (1/100) ∧
    -((I : ℚ) * (5/1000)) ≤ (pieceShakeForce I rx ry).x ∧
    (pieceShakeForce I rx ry).x ≤ (I : ℚ) * (5/1000) ∧
    -((I : ℚ) * (5/1000)) ≤ (pieceShakeForce I rx ry).y ∧
    (pieceShakeForce I rx ry).y ≤ (I : ℚ) * (5/1000) ∧
    -(f * (1/5)) ≤ (chessPieceImpulse f rx rz ry).x ∧
    (chessPieceImpulse f rx rz ry).x ≤ f * (1/5) ∧
    -(f * (1/5)) ≤ (chessPieceImpulse f rx rz ry).z ∧
    (chessPieceImpulse f rx rz ry).z ≤ f * (1/5) ∧
    0 ≤ (chessPieceImpulse f rx rz ry).y ∧
    (chessPieceImpulse f rx rz ry).y ≤ f * (3/20) := by
  have hI : (0:ℚ) ≤ (I : ℚ) := Nat.cast_nonneg I
  obtain ⟨a1, a2⟩ := symm_range_bound (I : ℚ) rx hI hx0 hx1
  obtain ⟨b1, b2⟩ := symm_range_bound (I : ℚ) ry hI hy0 hy1
  refine ⟨rfl, rfl, a1, a2, b1, b2, ?_, ?_, ?_, ?_, ?_, ?_⟩ <;>
    simp only [chessPieceImpulse] <;>
    nlinarith [mul_nonneg hx0 hf, mul_nonneg (by linarith : (0:ℚ) ≤ 1 - rx) hf,
      mul_nonneg hz0 hf, mul_nonneg (by linarith : (0:ℚ) ≤ 1 - rz) hf,
      mul_nonneg hy0 hf, mul_nonneg (by linarith : (0:ℚ) ≤ 1 - ry) hf]

/-- Witness for the amended C3 at concrete draws. -/
theorem shake_impulse_ranges_witness :
    (pieceShakeForce 2 1 0).x = (1 - 1/2) * ((2:ℕ) : ℚ) * (1/100) ∧
    (pieceShakeForce 2 1 0).y = (0 - 1/2) * ((2:ℕ) : ℚ) * (1/100) ∧
    -(((2:ℕ) : ℚ) * (5/1000)) ≤ (pieceShakeForce 2 1 0).x ∧
    (pieceShakeForce 2 1 0).x ≤ ((2:ℕ) : ℚ) * (5/1000) ∧
    -(((2:ℕ) : ℚ) * (5/1000)) ≤ (pieceShakeForce 2 1 0).y ∧
    (pieceShakeForce 2 1 0).y ≤ ((2:ℕ) : ℚ) * (5/1000) ∧
    -((3:ℚ) * (1/5)) ≤ (chessPieceImpulse 3 1 (1/2) 0).x ∧
    (chessPieceImpulse 3 1 (1/2) 0).x ≤ (3:ℚ) * (1/5) ∧
    -((3:ℚ) * (1/5)) ≤ (chessPieceImpulse 3 1 (1/2) 0).z ∧
    (chessPieceImpulse 3 1 (1/2) 0).z ≤ (3:ℚ) * (1/5) ∧
    0 ≤ (chessPieceImpulse 3 1 (1/2) 0).y ∧
    (chessPieceImpulse 3 1 (1/2) 0).y ≤ (3:ℚ) * (3/20) :=
  shake_impulse_ranges 2 3 1 0 (1/2) (by norm_num) (by norm_num) (by norm_num)
    (by norm_num) (by norm_num) (by norm_num) (by norm_num)

/-- C4 counterexample: after ten shakes the stored intensity is at its
maximum 10, yet the force scale the next shake uses is 11 — it is not the
clamped cumulative intensity and it exceeds 10. -/
theorem shake_scale_exceeds_clamp :
    (runCmds tenDisturbs initState).shakeIntensity = 10 ∧
    shakeScale (runCmds tenDisturbs initState) = 11 ∧
    shakeScale (runCmds tenDisturbs initState) ≠
      min ((runCmds tenDisturbs initState).shakeIntensity + 1) 10 ∧
    ¬ shakeScale (runCmds tenDisturbs initState) ≤ 10 := by
  refine ⟨?_, ?_, ?_, ?_⟩ <;> decide

/-- C4 amended: the force scale is the pre-call intensity plus one, without
clamping; it coincides with the clamped cumulative intensity whenever the
pre-call intensity is below 10, and over reachable states it never exceeds
11. -/
theorem shake_scale_amended (s : SimState) (h : s.shakeIntensity < 10) (cs : List Cmd) :
    shakeScale s = s.shakeIntensity + 1 ∧
    shakeScale s = min (s.shakeIntensity + 1) 10 ∧
    shakeScale (runCmds cs initState) ≤ 11 := by
  refine ⟨rfl, ?_, ?_⟩
  · simp only [shakeScale]; omega
  · have hb := runCmds_intensity_le cs initState (by decide)
    simp only [shakeScale]; omega

/-- Witness for the amended C4 at the initial state. -/
theorem shake_scale_amended_witness :
    shakeScale initState = initState.shakeIntensity + 1 ∧
    shakeScale initState = min (initState.shakeIntensity + 1) 10 ∧
    shakeScale (runCmds [] initState) ≤ 11 :=
  shake_scale_amended initState (by decide) []

/-- After five zero-draw shakes from the initial state the board squares
are still the setup squares (every scale so far was at most 5). -/
lemma fiveDisturbs_squares : (runCmds fiveDisturbs initState).squares = createSquares := by
  show (shakeBoard zeroRng (shakeBoard zeroRng (shakeBoard zeroRng (shakeBoard zeroRng
      (shakeBoard zeroRng initState))))).squares = createSquares
  rw [shakeBoard_squares_of_le _ _ (by decide), shakeBoard_squares_of_le _ _ (by decide),
    shakeBoard_squares_of_le _ _ (by decide), shakeBoard_squares_of_le _ _ (by decide),
    shakeBoard_squares_of_le _ _ (by decide)]
  rfl

/-- C5 counterexample: the sixth shake from the initial state runs at force
scale 6, and it translates the static board squares: with zero draws the
first square moves from (40,40) to (39,39).  So a disturb does mutate the
dynamic state (the position) of static bodies. -/
theorem disturb_moves_static_squares :
    ((shakeBoard zeroRng (runCmds fiveDisturbs initState)).squares.getD 0 ⟨⟨0, 0⟩⟩).position
      = ⟨39, 39⟩ ∧
    ((runCmds fiveDisturbs initState).squares.getD 0 ⟨⟨0, 0⟩⟩).position = ⟨40, 40⟩ ∧
    ((shakeBoard zeroRng (runCmds fiveDisturbs initState)).squares.getD 0 ⟨⟨0, 0⟩⟩).position
      ≠ ((runCmds fiveDisturbs initState).squares.getD 0 ⟨⟨0, 0⟩⟩).position := by
  have hscale : shakeScale (runCmds fiveDisturbs initState) = 6 := by decide
  have hsq : (shakeBoard zeroRng (runCmds fiveDisturbs initState)).squares =
      (runCmds fiveDisturbs initState).squares.mapIdx fun _ sq => translateSquare 6 0 0 sq := by
    simp only [shakeBoard, hscale, zeroRng]
    norm_num
  have hget : (createSquares.getD 0 ⟨⟨0, 0⟩⟩) =
      ⟨⟨(0 : ℚ) * squareSize + squareSize / 2, (0 : ℚ) * squareSize + squareSize / 2⟩⟩ := rfl
  have hmap : ((createSquares.mapIdx fun _ sq => translateSquare 6 0 0 sq).getD 0 ⟨⟨0, 0⟩⟩) =
      translateSquare 6 0 0 (createSquares.getD 0 ⟨⟨0, 0⟩⟩) := rfl
  rw [hsq, fiveDisturbs_squares, hmap, hget]
  refine ⟨?_, ?_, ?_⟩ <;>
    norm_num [translateSquare, squareShake, squareSize, Vec2.mk.injEq]

/-- C5 amended: a disturb never mutates the walls, and it leaves the static
board squares unchanged whenever the force scale is at most 5; only a shake
whose scale exceeds 5 translates the board squares. -/
theorem shake_static_amended (rng : ℕ → ℚ) (s : SimState) (h : shakeScale s ≤ 5) :
    (shakeBoard rng s).squares = s.squares ∧
    (∀ (rng2 : ℕ → ℚ) (s2 : SimState), (shakeBoard rng2 s2).walls = s2.walls) :=
  ⟨shakeBoard_squares_of_le rng s h, fun _ _ => rfl⟩

/-- Witness for the amended C5 at the initial state. -/
theorem shake_static_amended_witness :
    (shakeBoard zeroRng initState).squares = initState.squares ∧
    (∀ (rng2 : ℕ → ℚ) (s2 : SimState), (shakeBoard rng2 s2).walls = s2.walls) :=
  shake_static_amended zeroRng initState (by decide)

/-- The setup squares are exactly the index-derived grid squares, in order:
square `i` of the setup sits at the position `resetBoard` recomputes for
index `i`. -/
lemma createSquares_map :
    createSquares = (List.range 64).map fun i => (⟨squareOriginalPos i⟩ : SquareBody) := rfl

/-- `resetBoard` on a 64-square world restores exactly the setup squares. -/
lemma resetBoard_squares_64 (s : SimState) (h64 : s.squares.length = 64) :
    (resetBoard s).squares = createSquares := by
  rw [createSquares_map]
  apply List.ext_get
  · simp [resetBoard, h64]
  · intro n h1 h2
    have hn : n < s.squares.length := by simpa [resetBoard] using h1
    have hL : (resetBoard s).squares.get ⟨n, h1⟩ = ⟨squareOriginalPos n⟩ :=
      List.get_mapIdx s.squares _ n hn h1
    rw [hL]
    simp [List.get_eq_getElem, List.getElem_map, List.getElem_range]

/-- A shake preserves the number of board squares. -/
lemma shakeBoard_squares_length (rng : ℕ → ℚ) (s : SimState) :
    (shakeBoard rng s).squares.length = s.squares.length := by
  by_cases h : shakeScale s > 5 <;> simp [shakeBoard, h]

/-- Any command sequence preserves the number of board squares. -/
lemma runCmds_squares_length (cs : List Cmd) :
    ∀ s : SimState, (runCmds cs s).squares.length = s.squares.length := by
  induction cs with
  | nil => intro s; rfl
  | cons c cs ih =>
    intro s
    have hstep : (runCmd c s).squares.length = s.squares.length := by
      cases c with
      | disturb rng => exact shakeBoard_squares_length rng s
      | reset => simp [runCmd, resetBoard]
    simpa [runCmds] using (ih (runCmd c s)).trans hstep

/-- C9: `resetBoard` restores every static board square to the grid
position recomputed from its index (column `i % 8`, row `i / 8`, centre of
that cell); on any state reachable from setup this restores exactly the
setup squares, undoing any translation a high-intensity shake applied. -/
theorem reset_restores_squares (s : SimState) (i : ℕ)
    (h : i < (resetBoard s).squares.length) (h64 : s.squares.length = 64)
    (cs : List Cmd) :
    ((resetBoard s).squares.get ⟨i, h⟩).position =
      ⟨((i % 8 : ℕ) : ℚ) * squareSize + squareSize / 2,
       ((i / 8 : ℕ) : ℚ) * squareSize + squareSize / 2⟩ ∧
    (resetBoard s).squares = createSquares ∧
    (resetBoard (runCmds cs initState)).squares = createSquares := by
  refine ⟨?_, resetBoard_squares_64 s h64, ?_⟩
  · have hi : i < s.squares.length := by simpa [resetBoard] using h
    exact congrArg SquareBody.position (List.get_mapIdx s.squares _ i hi h)
  · refine resetBoard_squares_64 _ ?_
    rw [runCmds_squares_length cs initState]
    decide

/-- Witness for C9 at the setup state, square index 9. -/
theorem reset_restores_squares_witness :
    ((resetBoard initState).squares.get ⟨9, by decide⟩).position =
      ⟨((9 % 8 : ℕ) : ℚ) * squareSize + squareSize / 2,
       ((9 / 8 : ℕ) : ℚ) * squareSize + squareSize / 2⟩ ∧
    (resetBoard initState).squares = createSquares ∧
    (resetBoard (runCmds [Cmd.disturb zeroRng] initState)).squares = createSquares :=
  reset_restores_squares initState 9 (by decide) (by decide) [Cmd.disturb zeroRng]

/-- C10: every randomized shake quantity is bounded: each piece-force
component has absolute value at most 0.005 times the intensity used; the
board squares move only when the intensity exceeds 5, and then each
translation component has absolute value at most (intensity - 5). -/
theorem shake_randomized_bounded (I : ℕ) (rx ry : ℚ)
    (hx0 : 0 ≤ rx) (hx1 : rx ≤ 1) (hy0 : 0 ≤ ry) (hy1 : ry ≤ 1) :
    |(pieceShakeForce I rx ry).x| ≤ (I : ℚ) * (5/1000) ∧
    |(pieceShakeForce I rx ry).y| ≤ (I : ℚ) * (5/1000) ∧
    (∀ (rng : ℕ → ℚ) (s : SimState), shakeScale s ≤ 5 →
      (shakeBoard rng s).squares = s.squares) ∧
    (5 ≤ (I : ℚ) →
      |(squareShake I rx ry).x| ≤ (I : ℚ) - 5 ∧
      |(squareShake I rx ry).y| ≤ (I : ℚ) - 5) := by
  have hI : (0:ℚ) ≤ (I : ℚ) := Nat.cast_nonneg I
  obtain ⟨a1, a2⟩ := symm_range_bound (I : ℚ) rx hI hx0 hx1
  obtain ⟨b1, b2⟩ := symm_range_bound (I : ℚ) ry hI hy0 hy1
  refine ⟨abs_le.mpr ⟨a1, a2⟩, abs_le.mpr ⟨b1, b2⟩,
    fun rng s h => shakeBoard_squares_of_le rng s h, fun h5 => ⟨?_, ?_⟩⟩ <;>
    refine abs_le.mpr ⟨?_, ?_⟩ <;>
    simp only [squareShake] <;>
    nlinarith [mul_nonneg hx0 (by linarith : (0:ℚ) ≤ (I : ℚ) - 5),
      mul_nonneg (by linarith : (0:ℚ) ≤ 1 - rx) (by linarith : (0:ℚ) ≤ (I : ℚ) - 5),
      mul_nonneg hy0 (by linarith : (0:ℚ) ≤ (I : ℚ) - 5),
      mul_nonneg (by linarith : (0:ℚ) ≤ 1 - ry) (by linarith : (0:ℚ) ≤ (I : ℚ) - 5)]

/-- Witness for C10 at intensity 7 and extreme draws. -/
theorem shake_randomized_bounded_witness :
    |(pieceShakeForce 7 1 0).x| ≤ ((7:ℕ) : ℚ) * (5/1000) ∧
    |(pieceShakeForce 7 1 0).y| ≤ ((7:ℕ) : ℚ) * (5/1000) ∧
    (∀ (rng : ℕ → ℚ) (s : SimState), shakeScale s ≤ 5 →
      (shakeBoard rng s).squares = s.squares) ∧
    |(squareShake 7 1 0).x| ≤ ((7:ℕ) : ℚ) - 5 ∧
    |(squareShake 7 1 0).y| ≤ ((7:ℕ) : ℚ) - 5 := by
  have h := shake_randomized_bounded 7 1 0 (by norm_num) (by norm_num) (by norm_num)
    (by norm_num)
  exact ⟨h.1, h.2.1, h.2.2.1, (h.2.2.2 (by norm_num)).1, (h.2.2.2 (by norm_num)).2⟩

/-- All 64 grid cells in the row-major order `createPieces` scans them. -/
def cellPairs : List (ℕ × ℕ) :=
  (List.range 8).flatMap fun row => (List.range 8).map fun col => (row, col)

/-- The cells of `initialBoard` holding a piece character, in scan order. -/
def cellsNonDot : List (ℕ × ℕ) :=
  cellPairs.filter fun rc => cellChar rc.1 rc.2 ≠ '.'

/-- The piece body `createPieces` builds for the cell `(row, col)`: a body
at the centre of that cell, origin recorded there, white iff the character
is its own upper-case form. -/
def pieceAt (row col : ℕ) : PieceBody :=
  { position := ⟨(col : ℚ) * squareSize + squareSize / 2,
                 (row : ℚ) * squareSize + squareSize / 2⟩
    velocity := ⟨0, 0⟩
    angularVelocity := 0
    angle := 0
    force := ⟨0, 0⟩
    originalX := (col : ℚ) * squareSize + squareSize / 2
    originalY := (row : ℚ) * squareSize + squareSize / 2
    isWhite := (cellChar row col).toUpper = cellChar row col
    pieceType := cellChar row col }

/-- C8: world setup creates exactly one dynamic piece body per non-'.'
cell of the fixed starting layout — 32 in total: the piece list is exactly
the image of the non-'.' cells (each such cell occurring exactly once), the
body of a cell sits at the centre of that cell with its origin recorded
there, upper-case characters map to white and lower-case to black, and the
setup state is produced identically (it is a constant of the model). -/
theorem world_setup_layout :
    createPieces.length = 32 ∧
    createPieces = cellsNonDot.map (fun rc => pieceAt rc.1 rc.2) ∧
    (∀ row col : Fin 8,
      cellsNonDot.count ((row : ℕ), (col : ℕ)) =
        if cellChar (row : ℕ) (col : ℕ) ≠ '.' then 1 else 0) ∧
    (∀ row col : ℕ,
      (pieceAt row col).position =
        ⟨(col : ℚ) * squareSize + squareSize / 2,
         (row : ℚ) * squareSize + squareSize / 2⟩ ∧
      (pieceAt row col).originalX = (col : ℚ) * squareSize + squareSize / 2 ∧
      (pieceAt row col).originalY = (row : ℚ) * squareSize + squareSize / 2 ∧
      (pieceAt row col).isWhite =
        decide ((cellChar row col).toUpper = cellChar row col) ∧
      (pieceAt row col).pieceType = cellChar row col) ∧
    initState.pieces = createPieces :=
  ⟨by decide, rfl, by decide, fun row col => ⟨rfl, rfl, rfl, rfl, rfl⟩, rfl⟩
